import Mathlib

/-!
Verification development for the PalabraAI/twilio-demo repository.

Shallow embedding of:
- `src/utils/audio.py` (mu-law companding, rate conversion, mixing), including the
  parts of CPython `Modules/audioop.c` that the code calls (`ulaw2lin`, `lin2ulaw`,
  `ratecv` specialized to mono, width 2, the rates 8000/24000 used by the code);
- `src/utils/worker.py` (`BaseWorkerProcess.run`, `AsyncProcessManager`);
- `src/main.py` (`SimpleWebSocket._receive_from_twilio`, `_receive_from_palabra`,
  `SimpleWebSocket.close`).

Byte strings are modelled as `List ℕ` (each entry one byte), 16-bit PCM sample
sequences as `List ℤ` (each entry one signed 16-bit sample; `np.frombuffer(_, int16)`
is the byte-pairing decode and is modelled by working at the sample level).
Python floats (the mixing gains) are modelled as ℚ; the float values occurring in
the code (0.5, 1.0, …) are exactly representable.
-/

/-! ### CPython `audioop` model (Modules/audioop.c), specialized to width=2 mono

`audioop.lin2ulaw(data, 2)` applies `st_14linear2ulaw(sample >> 2)` to each 16-bit
sample; `audioop.ulaw2lin(data, 2)` applies `st_ulaw2linear16` to each byte.
`audioop.ratecv(data, 2, 1, inrate, outrate, None)` is the linear-interpolation
resampler below (weightA=1, weightB=0); after dividing by gcd, 24000→8000 has
(inrate, outrate) = (3, 1) and 8000→24000 has (inrate, outrate) = (1, 3).
-/

/-- The `seg_uend` segment-end table of `audioop.c`. -/
def seg_uend : List ℕ := [0x3F, 0x7F, 0xFF, 0x1FF, 0x3FF, 0x7FF, 0xFFF, 0x1FFF]

/-- Model of `search(val, table, size)` from `audioop.c`: index of the first table entry
that is ≥ `val`, or the table size if none is. -/
def ulawSearch (val : ℕ) : List ℕ → ℕ
  | [] => 0
  | t :: rest => if val ≤ t then 0 else ulawSearch val rest + 1

/-- Model of `st_14linear2ulaw` from `audioop.c`: encode one 14-bit linear sample
(CLIP = 8159, BIAS >> 2 = 33). -/
def st_14linear2ulaw (pcm_val : ℤ) : ℕ :=
  let mask : ℕ := if pcm_val < 0 then 0x7F else 0xFF
  let mag : ℕ := min pcm_val.natAbs 8159
  let v : ℕ := mag + 33
  let seg : ℕ := ulawSearch v seg_uend
  if 8 ≤ seg then 0x7F ^^^ mask
  else ((seg <<< 4) ||| ((v >>> (seg + 1)) &&& 0xF)) ^^^ mask

/-- One sample of `audioop.lin2ulaw(_, 2)`: `st_14linear2ulaw(sample >> 2)`;
the arithmetic shift `>> 2` on a signed sample is floor division by 4. -/
def lin2ulawSample (v : ℤ) : ℕ := st_14linear2ulaw (v / 4)

/-- Model of `audioop.lin2ulaw(data, 2)` on a sample sequence. -/
def lin2ulaw (samples : List ℤ) : List ℕ := samples.map lin2ulawSample

/-- Model of `st_ulaw2linear16` from `audioop.c`: decode one mu-law byte
(QUANT_MASK = 0xF, BIAS = 0x84, SEG_MASK = 0x70, SEG_SHIFT = 4, SIGN_BIT = 0x80). -/
def st_ulaw2linear16 (u : ℕ) : ℤ :=
  let uc : ℕ := 0xFF - (u % 256)
  let t0 : ℕ := ((uc &&& 0xF) <<< 3) + 0x84
  let t : ℕ := t0 <<< ((uc &&& 0x70) >>> 4)
  if uc &&& 0x80 ≠ 0 then (0x84 : ℤ) - (t : ℤ) else (t : ℤ) - 0x84

/-- Model of `audioop.ulaw2lin(data, 2)` on a byte sequence. -/
def ulaw2lin (bs : List ℕ) : List ℤ := bs.map st_ulaw2linear16

/-- Truncating division by 3 (the C code computes the interpolation in `double`
and casts to `int`, which truncates toward zero). -/
def tdiv3 (a : ℤ) : ℤ :=
  if 0 ≤ a then ((a.toNat / 3 : ℕ) : ℤ) else -(((-a).toNat / 3 : ℕ) : ℤ)

/-- The `ratecv` output formula `(prev_i * d + cur_i * (outrate - d)) / outrate`
for outrate = 3 (the 8000→24000 direction). -/
def interp3 (p c d : ℤ) : ℤ := tdiv3 (p * d + c * (3 - d))

/-- Tail of `ratecv(_, 2, 1, 8000, 24000, None)`: after the first input sample,
each further input sample `c` (with predecessor `p`) emits the three outputs at
d = 2, 1, 0, namely `interp3 p c 2`, `interp3 p c 1`, `c`. -/
def ratecv_8k_to_24k_aux (p : ℤ) : List ℤ → List ℤ
  | [] => []
  | c :: rest => interp3 p c 2 :: interp3 p c 1 :: c :: ratecv_8k_to_24k_aux c rest

/-- Model of `audioop.ratecv(data, 2, 1, 8000, 24000, None)[0]` on a sample sequence:
with state `None` we have d = -3, prev_i = cur_i = 0; the first input sample
emits the single output at d = 0, i.e. `interp3 0 c 0`, then the tail follows. -/
def ratecv_8k_to_24k : List ℤ → List ℤ
  | [] => []
  | c :: rest => interp3 0 c 0 :: ratecv_8k_to_24k_aux c rest

/-- Model of `audioop.ratecv(data, 2, 1, 24000, 8000, None)[0]` on a sample sequence:
with (inrate, outrate) = (3, 1) and state `None` (d = -1), the resampler emits
the input samples at indices 0, 3, 6, …, each emitted exactly
(`(prev*0 + cur*1)/1 = cur`). -/
def ratecv_24k_to_8k : List ℤ → List ℤ
  | [] => []
  | [c] => [c]
  | [c, _] => [c]
  | c :: _ :: _ :: rest => c :: ratecv_24k_to_8k rest

/-! ### `src/utils/audio.py` -/

/-- Model of `convert_mulaw_to_pcm` (src/utils/audio.py lines 13–15, identical to
`MulawToPcmWorker.handle` lines 23–25): `audioop.ulaw2lin(mulaw_bytes, 2)`
followed by `audioop.ratecv(pcm_8k, 2, 1, 8000, 24000, None)[0]`. -/
def convert_mulaw_to_pcm (mulaw_bytes : List ℕ) : List ℤ :=
  ratecv_8k_to_24k (ulaw2lin mulaw_bytes)

/-- Model of `np.clip(x, -32768, 32767)` on one (rational-valued) sample. -/
def clip16 (q : ℚ) : ℚ := max (-32768) (min 32767 q)

/-- Model of `.astype(np.int16)` on a clipped float sample: the C float→int cast
truncates toward zero. -/
def truncQ (q : ℚ) : ℤ := if 0 ≤ q then ⌊q⌋ else -⌊-q⌋

/-- One sample of the single-chunk branch of `MixingWorker.handle`:
`np.clip(pcm_a * vol_a, -32768, 32767).astype(np.int16)`. -/
def mixSample1 (va : ℚ) (x : ℤ) : ℤ := truncQ (clip16 (x * va))

/-- One sample of the two-chunk branch of `MixingWorker.handle`:
`np.clip((pcm_a * vol_a + pcm_b * vol_b) / (vol_a + vol_b), -32768, 32767).astype(np.int16)`. -/
def mixSample2 (va vb : ℚ) (x y : ℤ) : ℤ :=
  truncQ (clip16 ((x * va + y * vb) / (va + vb)))

/-- Model of `np.pad(l, (0, n - len(l)), 'constant')`: right-pad with zero samples. -/
def padTo (n : ℕ) (l : List ℤ) : List ℤ := l ++ List.replicate (n - l.length) 0

/-- The payload dict of `MixingWorker.handle`: `chunk1` (required), optional
`chunk2`, gains `vol_a`, `vol_b` (`payload.get(_, 0.5)` supplies 0.5 when the
caller omits them; here they are explicit fields). -/
structure MixPayload where
  chunk1 : List ℤ
  chunk2 : Option (List ℤ)
  vol_a : ℚ
  vol_b : ℚ

/-- The mixed 16-bit sample sequence `mixed` computed by `MixingWorker.handle`
(src/utils/audio.py lines 33–57) just before `audioop.ratecv`/`lin2ulaw`:
`chunk2 is None` branch scales `chunk1` by `vol_a`; otherwise both chunks are
zero-padded to the longer length (`target_len = max`) and combined as the
gain-weighted normalized sum, clipped and cast to int16. -/
def mixedSamples (p : MixPayload) : List ℤ :=
  match p.chunk2 with
  | none => p.chunk1.map (mixSample1 p.vol_a)
  | some c2 =>
    let n := max p.chunk1.length c2.length
    List.zipWith (mixSample2 p.vol_a p.vol_b) (padTo n p.chunk1) (padTo n c2)

/-- Model of `MixingWorker.handle` (src/utils/audio.py lines 33–59): mix, then
`audioop.ratecv(mixed, 2, 1, 24000, 8000, None)[0]`, then
`audioop.lin2ulaw(mixed_8k, 2)`. -/
def MixingWorker_handle (p : MixPayload) : List ℕ :=
  lin2ulaw (ratecv_24k_to_8k (mixedSamples p))

/-! ### `src/utils/worker.py` -/

/-- An item on the shared input queue: `None` (the termination sentinel), a
single `(task_id, payload)` pair (from `submit`), or a list of pairs (from
`submit_many`). Task ids are `uuid.uuid4().hex` strings in the source; they are
modelled as naturals drawn from a counter, which models the assumption that
freshly drawn uuid4 values never collide. -/
inductive QueueItem (α : Type) where
  | sentinel
  | single (t : ℕ × α)
  | batch (ts : List (ℕ × α))
  deriving DecidableEq

/-- The output triple one task produces: on success the worker puts
`(task_id, result, None)`; on an exception, `(task_id, None, str(exc))`.
`handle : α → Except String β` models `self.handle`, with `.error e` standing
for a raised exception whose `str` is `e`. -/
def workerOut {α β : Type} (handle : α → Except String β) (t : ℕ × α) :
    ℕ × Option β × Option String :=
  match handle t.2 with
  | .ok v => (t.1, some v, none)
  | .error e => (t.1, none, some e)

/-- The per-item body of `BaseWorkerProcess.run` (src/utils/worker.py lines
24–38): `batch = item if isinstance(item, list) else [item]`, then for every
`(task_id, payload)` of the batch, in order, one output triple is put. The
sentinel makes the worker exit and produces no output. -/
def processItem {α β : Type} (handle : α → Except String β) :
    QueueItem α → List (ℕ × Option β × Option String)
  | .sentinel => []
  | .single t => [t].map (workerOut handle)
  | .batch ts => ts.map (workerOut handle)

/-- The observable final state of one `asyncio.Future` resolved by the manager. -/
inductive Outcome (β : Type) where
  | ok (v : Option β)
  | err (e : String)
  | cancelled
  deriving DecidableEq

/-- How `handle_item` resolves a triple: `if error:` is Python truthiness, so
both `None` and the empty string select `fut.set_result(result)`; only a
nonempty error string selects `fut.set_exception(RuntimeError(error))`. -/
def tripleOutcome {β : Type} (t : ℕ × Option β × Option String) : Outcome β :=
  match t.2.2 with
  | some e => if e = "" then .ok t.2.1 else .err e
  | none => .ok t.2.1

/-- State of one `AsyncProcessManager`. `pending` is the key set of the
`self.futures` dict in insertion order (every future held in the dict is
unresolved); `done` records resolved futures with the outcome their awaiting
callers observe; `nextId` is the fresh-id counter modelling uuid4 generation;
`procs` is the process count fixed in `__init__`. -/
structure MgrState (α β : Type) where
  inputQueue : List (QueueItem α)
  outputQueue : List (ℕ × Option β × Option String)
  pending : List ℕ
  done : List (ℕ × Outcome β)
  nextId : ℕ
  procs : ℕ
  workersAlive : ℕ
  resolverActive : Bool
  joinTimeout : Option ℕ

/-- The state right after `AsyncProcessManager.__init__` with `processes`
worker processes. -/
def initMgr (α β : Type) (processes : ℕ) : MgrState α β :=
  { inputQueue := [], outputQueue := [], pending := [], done := [],
    nextId := 0, procs := processes, workersAlive := processes,
    resolverActive := true, joinTimeout := none }

/-- Model of `AsyncProcessManager.submit` (lines 84–89): draw a fresh task id, register a
pending future under it, put the `(task_id, data)` pair on the input queue, and
return the id of the future the caller then awaits. There is no check of any
closed/running flag. -/
def AsyncProcessManager.submit {α β : Type} (s : MgrState α β) (payload : α) :
    MgrState α β × ℕ :=
  ({ s with nextId := s.nextId + 1,
            pending := s.pending ++ [s.nextId],
            inputQueue := s.inputQueue ++ [.single (s.nextId, payload)] }, s.nextId)

/-- Fuel-indexed slicing loop
`for idx in range(0, len(data), batch_size): data[idx : idx + batch_size]`;
with `batch_size ≥ 1`, fuel `l.length` never runs out. -/
def sliceLoop {α : Type} (k : ℕ) : ℕ → List α → List (List α)
  | _, [] => []
  | 0, l => [l]
  | fuel + 1, l => l.take k :: sliceLoop k fuel (l.drop k)

/-- The groups `data[0:k], data[k:2k], …` produced by the `submit_many` loop. -/
def pythonSlices {α : Type} (k : ℕ) (l : List α) : List (List α) :=
  sliceLoop k l.length l

/-- One iteration of the `submit_many` loop for one slice: fresh ids for the
group's payloads in order, one pending future per payload, and ONE queue item
(the whole list of pairs) appended to the input queue. -/
def submitGroup {α β : Type} (s : MgrState α β) (group : List α) : MgrState α β :=
  { s with nextId := s.nextId + group.length,
           pending := s.pending ++ List.range' s.nextId group.length,
           inputQueue :=
             s.inputQueue ++ [.batch ((List.range' s.nextId group.length).zip group)] }

/-- Model of `AsyncProcessManager.submit_many(data, batch_size)` (lines 91–114), for
`batch_size ≥ 1` (the source raises `ValueError` otherwise): slice `data`,
submit each slice as one queue item, collecting the task ids of all payloads in
submission order (the futures `asyncio.gather` then awaits, in that order). -/
def AsyncProcessManager.submit_many {α β : Type} (s : MgrState α β) (data : List α)
    (batch_size : ℕ) : MgrState α β × List ℕ :=
  (pythonSlices batch_size data).foldl
    (fun acc group =>
      (submitGroup acc.1 group, acc.2 ++ List.range' acc.1.nextId group.length))
    (s, [])

/-- Model of `AsyncProcessManager.handle_item` (lines 151–159): pop the pending record
for the triple's id BEFORE resolving; if there is none (`fut is None`), return
with no other state change; otherwise resolve the popped future according to
`tripleOutcome`. -/
def AsyncProcessManager.handle_item {α β : Type} (s : MgrState α β)
    (t : ℕ × Option β × Option String) : MgrState α β :=
  if t.1 ∈ s.pending then
    { s with pending := s.pending.erase t.1,
             done := s.done ++ [(t.1, tripleOutcome t)] }
  else s

/-- The resolver loop `poll_output` (lines 134–149) applied to a finite sequence
of output triples, in the order it dequeues them: each is passed to
`handle_item`. -/
def resolveAll {α β : Type} (s : MgrState α β)
    (outs : List (ℕ × Option β × Option String)) : MgrState α β :=
  outs.foldl AsyncProcessManager.handle_item s

/-- Model of `AsyncProcessManager.close` (lines 116–132): put one `None` sentinel per
worker process, cancel and await the resolver task, `join(timeout=1)` every
worker, then set `asyncio.CancelledError` on every not-yet-done future left in
the dict and clear the dict. -/
def AsyncProcessManager.close {α β : Type} (s : MgrState α β) : MgrState α β :=
  { s with inputQueue := s.inputQueue ++ List.replicate s.procs .sentinel,
           resolverActive := false,
           joinTimeout := some 1,
           done := s.done ++ s.pending.map (fun id => (id, Outcome.cancelled)),
           pending := [] }

/-- One asynchronous step of the running pool: a live worker consumes the head
of the input queue (exiting on a sentinel, otherwise appending that item's
outputs to the output queue), or the active resolver consumes the head of the
output queue through `handle_item`. -/
inductive PoolStep {α β : Type} (handle : α → Except String β) :
    MgrState α β → MgrState α β → Prop
  | workerSentinel (s : MgrState α β) (rest : List (QueueItem α)) :
      0 < s.workersAlive → s.inputQueue = .sentinel :: rest →
      PoolStep handle s
        { s with inputQueue := rest, workersAlive := s.workersAlive - 1 }
  | workerRun (s : MgrState α β) (it : QueueItem α) (rest : List (QueueItem α)) :
      0 < s.workersAlive → s.inputQueue = it :: rest → it ≠ .sentinel →
      PoolStep handle s
        { s with inputQueue := rest,
                 outputQueue := s.outputQueue ++ processItem handle it }
  | resolver (s : MgrState α β) (t : ℕ × Option β × Option String)
      (rest : List (ℕ × Option β × Option String)) :
      s.resolverActive = true → s.outputQueue = t :: rest →
      PoolStep handle s
        (AsyncProcessManager.handle_item { s with outputQueue := rest } t)

/-- Reflexive-transitive closure of pool steps. -/
def PoolReachable {α β : Type} (handle : α → Except String β) :
    MgrState α β → MgrState α β → Prop :=
  Relation.ReflTransGen (PoolStep handle)

/-- A task id whose future is never resolved: it stays in the pending dict in
every reachable state, so the caller awaiting it hangs forever. -/
def NeverResolved {α β : Type} (handle : α → Except String β) (s0 : MgrState α β)
    (id : ℕ) : Prop :=
  ∀ s, PoolReachable handle s0 s → id ∈ s.pending

/-! ### `src/main.py`: `SimpleWebSocket._receive_from_twilio` (lines 195–248) -/

/-- The chunk size `buffer_size = int(8_000 * 0.320)`. -/
def buffer_size : ℕ := 2560

/-- One parsed Twilio frame: `data['event']` is `'media'` (carrying the
base64-decoded payload bytes) or `'start'` (carrying `streamSid`); any other
event is ignored by the loop body. -/
inductive TwilioEvent where
  | media (payload : List ℕ)
  | start (streamSid : String)
  | other
  deriving DecidableEq

/-- Loop state of `_receive_from_twilio`: the accumulating byte buffer, the
mu-law chunks handed (in order) to `convert_mulaw_to_pcm` and forwarded, and
the stream sid a `start` event stored onto the call session for this leg. -/
structure TwilioRecvState where
  buffer : List ℕ
  sent : List (List ℕ)
  capturedSid : Option String
  deriving DecidableEq

/-- Initial state: `buffer = bytearray()`, nothing sent, no sid captured. -/
def initTwilioRecvState : TwilioRecvState := ⟨[], [], none⟩

/-- The `media` branch (lines 207–224): append the decoded payload to the
buffer; then `if len(buffer) >= buffer_size:` drain exactly one chunk
(`buffer[:buffer_size]`) from the front and forward it. The drain is a
conditional, not a loop, so at most one chunk leaves per frame. -/
def processMedia (s : TwilioRecvState) (payload : List ℕ) : TwilioRecvState :=
  let buf := s.buffer ++ payload
  if buffer_size ≤ buf.length then
    { s with buffer := buf.drop buffer_size, sent := s.sent ++ [buf.take buffer_size] }
  else { s with buffer := buf }

/-- One iteration of the `async for message in self.source_ws.iter_text()` body
(with `_running` true). -/
def processTwilioEvent (s : TwilioRecvState) : TwilioEvent → TwilioRecvState
  | .media p => processMedia s p
  | .start sid => { s with capturedSid := some sid }
  | .other => s

/-- The whole receive loop over the frames of one inbound stream, `_running`
remaining true until the stream itself ends. -/
def twilioLoop (events : List TwilioEvent) : TwilioRecvState :=
  events.foldl processTwilioEvent initTwilioRecvState

/-- Model of `_receive_from_twilio` including its `finally` block: once the inbound
stream ends, `if buffer and self._running:` flushes the whole remaining buffer
through the same conversion-and-forward path. Returns every forwarded chunk, in
order. -/
def receive_from_twilio (events : List TwilioEvent) : List (List ℕ) :=
  let s := twilioLoop events
  if s.buffer = [] then s.sent else s.sent ++ [s.buffer]

/-- The media payloads of a frame sequence, in arrival order. -/
def mediaPayloads (events : List TwilioEvent) : List (List ℕ) :=
  events.filterMap fun e => match e with | .media p => some p | _ => none

/-! ### `src/main.py`: `_receive_from_palabra`, `output_audio_data` branch (lines 267–297) -/

/-- What one `output_audio_data` message leads to. -/
inductive PalabraAction where
  | sentToTwilio (streamSid : String) (payload : List ℕ)
  | droppedDecodeError (msg : String)
  deriving DecidableEq

/-- The `output_audio_data` handler: decode the audio, run
`convert_pcm_to_mulaw` (abstracted as `conv`, an ffmpeg subprocess in the
source), pick the OPPOSITE leg's stream sid (`operator_sid` when the role is
`'client'`, else `client_sid`), then `assert stream_sid is not None` and send to
`target_ws`. The `assert` sits INSIDE the `try/except Exception` block, so a
missing sid raises `AssertionError`, which the `except` catches and prints
(`Audio decode error`); the chunk is dropped and the `while` loop continues (the
returned Bool is whether the loop continues, `true` on both paths). -/
def handleOutputAudio (role : String) (client_sid operator_sid : Option String)
    (audio : List ℤ) (conv : List ℤ → List ℕ) : PalabraAction × Bool :=
  let payload := conv audio
  let stream_sid := if role = "client" then operator_sid else client_sid
  match stream_sid with
  | none => (.droppedDecodeError "streamSid must be set", true)
  | some sid => (.sentToTwilio sid payload, true)

/-! ### `src/main.py`: `SimpleWebSocket` attributes and `close` (lines 149–366) -/

/-- Every attribute name ever assigned on a `SimpleWebSocket` instance: the two
class attributes (lines 150–151) and the assignments of `__init__` (lines
153–170). The methods only re-assign `ws`, `_running` and the two task
attributes, all already in this list; no code path assigns `twilio_ws`. -/
def simpleWebSocketAttrs : List String :=
  ["client_sid", "operator_sid", "url", "ws", "call_session", "source_ws",
   "target_ws", "settings", "role", "_palabra_receive_task",
   "_twilio_receive_task", "_running", "_cleanup_lock"]

/-- Outcome of a sequence of Python attribute reads. -/
inductive PyAttrResult where
  | ok
  | attributeError (name : String)
  deriving DecidableEq

/-- Read a sequence of attribute names in order, failing with `AttributeError`
at the first name not present on the instance. -/
def readAttrs (attrs : List String) : List String → PyAttrResult
  | [] => .ok
  | n :: rest => if n ∈ attrs then readAttrs attrs rest else .attributeError n

/-- The `self.…` attribute reads `SimpleWebSocket.close` (lines 328–366)
performs, in order, when entered with `_running` true: the cleanup lock, the
`_running` check, the two receive task attributes, `self.ws`, then
`self.twilio_ws`. -/
def close_attr_reads : List String :=
  ["_cleanup_lock", "_running", "_palabra_receive_task", "_twilio_receive_task",
   "ws", "twilio_ws"]

/-- Model of `SimpleWebSocket.close`: entered with `_running` false it returns right
after reading the lock and the flag; entered with `_running` true it performs
all its attribute reads in order, raising `AttributeError` at the first missing
name. -/
def SimpleWebSocket_close (running : Bool) : PyAttrResult :=
  if running then readAttrs simpleWebSocketAttrs close_attr_reads
  else readAttrs simpleWebSocketAttrs ["_cleanup_lock", "_running"]

/-! ### Derived definitions used by the statements -/

/-- The invariant the manager maintains on its futures dict: pending ids are
pairwise distinct and all below the fresh-id counter. -/
def MgrWf {α β : Type} (s : MgrState α β) : Prop :=
  s.pending.Nodup ∧ ∀ id ∈ s.pending, id < s.nextId

/-- The queue items `submit_many` appends for a list of payload groups, with
consecutive fresh ids starting at `firstId`: one `.batch` item per group. -/
def batchItems {α : Type} (firstId : ℕ) : List (List α) → List (QueueItem α)
  | [] => []
  | g :: gs =>
    .batch ((List.range' firstId g.length).zip g) :: batchItems (firstId + g.length) gs

/-- The output triples the workers produce for the payloads of one `submit_many`
call, listed in submission (id) order. Workers may interleave, so the resolver
receives some permutation of this list. -/
def canonicalOuts {α β : Type} (handle : α → Except String β) (firstId : ℕ)
    (data : List α) : List (ℕ × Option β × Option String) :=
  ((List.range' firstId data.length).zip data).map (workerOut handle)

/-- First-match association lookup (the read side of the futures dict / of the
record of resolved futures). -/
def lookupId {β : Type} (id : ℕ) : List (ℕ × β) → Option β
  | [] => none
  | (i, v) :: rest => if i = id then some v else lookupId id rest

/-- Model of `await asyncio.gather(*pending_futures)`: the final outcome of each
submitted future, read off in submission order (`none` would mean the future
was never resolved). -/
def gatherResults {α β : Type} (s : MgrState α β) (ids : List ℕ) :
    List (Option (Outcome β)) :=
  ids.map fun id => lookupId id s.done

/-- The outcome the caller observes for one payload: a successful transform is
`set_result(result)`; a raised exception is `RuntimeError(str(exc))` — unless
`str(exc)` is the empty string, in which case `if error:` is false and the slot
is resolved as a successful `None` result. -/
def submittedOutcome {α β : Type} (handle : α → Except String β) (p : α) :
    Outcome β :=
  match handle p with
  | .ok v => .ok (some v)
  | .error e => if e = "" then .ok none else .err e

/-- Whether an outcome is a failure delivered through `set_exception`. -/
def Outcome.isFailure {β : Type} : Outcome β → Bool
  | .err _ => true
  | .ok _ => false
  | .cancelled => true

/-- Transform used by the C2 counterexample: payload 0 raises an exception whose
`str` is the empty string. -/
def cexHandle : ℕ → Except String ℕ := fun n => if n = 0 then .error "" else .ok n

/-- Concrete scenario for C3: a fresh two-worker manager is closed, then one
more payload is submitted. -/
def c3demo : MgrState ℕ ℕ × ℕ :=
  AsyncProcessManager.submit (AsyncProcessManager.close (initMgr ℕ ℕ 2)) 7

/-- Concrete manager state for the C4 witness: one pending task with id 0,
fresh-id counter at 1. -/
def c4demo : MgrState ℕ ℕ :=
  { inputQueue := [], outputQueue := [], pending := [0], done := [],
    nextId := 1, procs := 1, workersAlive := 1, resolverActive := true,
    joinTimeout := none }

/-- Concrete output triples for the C4 witness. -/
def c4t : ℕ × Option ℕ × Option String := (0, some 3, none)

/-- A second triple carrying the same task id as `c4t`. -/
def c4u : ℕ × Option ℕ × Option String := (0, none, some "x")

/-! ### Claim C9 -/

/-- C9: whenever `SimpleWebSocket.close()` is entered with the bridge running
(`_running` set), it evaluates `self.twilio_ws`, an attribute that no code path
ever assigns, so the cleanup path raises `AttributeError` before completing:
`close()` cannot finish normally once a bridge has started. -/
theorem C9_close_raises_attribute_error :
    SimpleWebSocket_close true = .attributeError "twilio_ws" ∧
    "twilio_ws" ∉ simpleWebSocketAttrs ∧
    SimpleWebSocket_close true ≠ .ok := by decide

/-! ### Claim C10 -/

/-- C10: in the inbound relay direction, processing one media frame drains at
most one fixed-size chunk from the buffer (the drain is a conditional, not a
loop), so a single frame whose payload completes two or more full chunks leaves
the surplus full chunks buffered until a later frame arrives. -/
theorem C10_at_most_one_chunk_per_frame (s : TwilioRecvState) (payload : List ℕ) :
    (processMedia s payload).sent.length ≤ s.sent.length + 1 ∧
    (2 * buffer_size ≤ s.buffer.length + payload.length →
      buffer_size ≤ (processMedia s payload).buffer.length) := by
  constructor
  · by_cases hc : buffer_size ≤ s.buffer.length + payload.length <;>
      simp [processMedia, hc]
  · intro h
    by_cases hc : buffer_size ≤ s.buffer.length + payload.length <;>
      simp [processMedia, hc] <;> omega

/-- Witness for C10: a single frame of 5120 bytes on an empty buffer satisfies
the two-chunk hypothesis and leaves a full chunk buffered. -/
theorem C10_witness :
    2 * buffer_size ≤
        (⟨[], [], none⟩ : TwilioRecvState).buffer.length +
          (List.replicate 5120 0).length ∧
    buffer_size ≤
      (processMedia ⟨[], [], none⟩ (List.replicate 5120 0)).buffer.length :=
  ⟨by norm_num [buffer_size, List.length_replicate],
   (C10_at_most_one_chunk_per_frame ⟨[], [], none⟩ (List.replicate 5120 0)).2
     (by norm_num [buffer_size, List.length_replicate])⟩

/-! ### Claim C8 -/

/-- For `n ≥ 1` input samples, the 8k→24k resampler emits `3n - 2` samples. -/
theorem ratecv_8k_to_24k_aux_length (p : ℤ) (l : List ℤ) :
    (ratecv_8k_to_24k_aux p l).length = 3 * l.length := by
  induction l generalizing p with
  | nil => simp [ratecv_8k_to_24k_aux]
  | cons c rest ih => simp [ratecv_8k_to_24k_aux, ih]; omega

/-- C8 amended: for every nonempty mu-law input of `n` bytes (one sample per
byte, so no input length is malformed), `convert_mulaw_to_pcm` produces exactly
`3n - 2` PCM samples — not `3n` within ±1; the conversion is a pure function of
its input. -/
theorem C8_amended_upsample_length (l : List ℕ) (h : l ≠ []) :
    (convert_mulaw_to_pcm l).length = 3 * l.length - 2 := by
  obtain ⟨b, bs, rfl⟩ := List.exists_cons_of_ne_nil h
  simp [convert_mulaw_to_pcm, ulaw2lin, ratecv_8k_to_24k,
    ratecv_8k_to_24k_aux_length]
  omega

/-- Witness for C8: the one-byte input. -/
theorem C8_amended_witness :
    ([255] : List ℕ) ≠ [] ∧ (convert_mulaw_to_pcm [255]).length = 3 * 1 - 2 :=
  ⟨by decide, C8_amended_upsample_length [255] (by decide)⟩

/-- C8 as stated is false at the one-byte input: the output has 1 sample, which
is not within ±1 of `inputSamples * (24000/8000) = 3`. -/
theorem C8_counterexample :
    (convert_mulaw_to_pcm [255]).length = 1 ∧
    ¬(3 - 1 ≤ (convert_mulaw_to_pcm [255]).length ∧
        (convert_mulaw_to_pcm [255]).length ≤ 3 + 1) := by decide

/-! ### Claim C6 -/

/-- C6 amended: if the opposite leg's stream identifier is still unassigned when
translated audio must be forwarded, the `assert` failure is caught by the
per-message exception handler: the chunk is dropped with a logged decode error
and the receive loop continues. There is no deferral and no fatal session
error. -/
theorem C6_amended_missing_sid_drops_audio (role : String)
    (client_sid operator_sid : Option String) (audio : List ℤ)
    (conv : List ℤ → List ℕ)
    (h : (if role = "client" then operator_sid else client_sid) = none) :
    handleOutputAudio role client_sid operator_sid audio conv =
      (.droppedDecodeError "streamSid must be set", true) := by
  unfold handleOutputAudio
  rw [h]

/-- Witness for C6: the client leg with no operator stream sid assigned. -/
theorem C6_amended_witness :
    (if "client" = "client" then (none : Option String) else none) = none ∧
    handleOutputAudio "client" none none [0] (fun _ => []) =
      (.droppedDecodeError "streamSid must be set", true) :=
  ⟨by decide,
   C6_amended_missing_sid_drops_audio "client" none none [0] (fun _ => [])
     (by decide)⟩

/-- C6 as stated is false at a concrete input: with the opposite sid unassigned,
the handler neither defers the chunk nor raises a fatal session error — the
chunk is dropped (with a printed decode error) and the loop continues. -/
theorem C6_counterexample :
    (handleOutputAudio "client" none none [1, 2, 3] lin2ulaw).1 =
      .droppedDecodeError "streamSid must be set" ∧
    (handleOutputAudio "client" none none [1, 2, 3] lin2ulaw).2 = true := by
  constructor <;> rfl

/-! ### Claim C5 -/

/-- One media frame conserves bytes: what was forwarded plus what remains
buffered equals what had arrived. -/
theorem processMedia_flatten (s : TwilioRecvState) (p : List ℕ) :
    (processMedia s p).sent.flatten ++ (processMedia s p).buffer =
      s.sent.flatten ++ s.buffer ++ p := by
  by_cases hc : buffer_size ≤ s.buffer.length + p.length <;>
    simp [processMedia, hc, List.append_assoc]

/-- Every chunk drained by the loop has length exactly `buffer_size`. -/
theorem processMedia_chunk_sizes (s : TwilioRecvState) (p : List ℕ)
    (h : ∀ c ∈ s.sent, c.length = buffer_size) :
    ∀ c ∈ (processMedia s p).sent, c.length = buffer_size := by
  by_cases hc : buffer_size ≤ s.buffer.length + p.length <;>
    simp [processMedia, hc]
  · intro c hm
    rcases hm with hm | hm
    · exact h c hm
    · subst hm
      simp [List.length_take]
      omega
  · exact h

/-- Loop invariant of `_receive_from_twilio`: forwarded chunks plus the current
buffer always concatenate to the media payloads received so far, and all
forwarded chunks are exactly `buffer_size` long. -/
theorem twilioLoop_invariant (events : List TwilioEvent) (s : TwilioRecvState)
    (h : ∀ c ∈ s.sent, c.length = buffer_size) :
    ((events.foldl processTwilioEvent s).sent.flatten ++
        (events.foldl processTwilioEvent s).buffer =
      s.sent.flatten ++ s.buffer ++ (mediaPayloads events).flatten) ∧
    ∀ c ∈ (events.foldl processTwilioEvent s).sent, c.length = buffer_size := by
  induction events generalizing s with
  | nil => simpa [mediaPayloads]
  | cons e rest ih =>
    cases e with
    | media p =>
      obtain ⟨h1, h2⟩ := ih (processMedia s p) (processMedia_chunk_sizes s p h)
      simp only [List.foldl_cons, processTwilioEvent]
      refine ⟨?_, h2⟩
      rw [h1, processMedia_flatten]
      simp [mediaPayloads, List.filterMap_cons, List.append_assoc]
    | start sid =>
      obtain ⟨h1, h2⟩ := ih { s with capturedSid := some sid } h
      simp only [List.foldl_cons, processTwilioEvent]
      refine ⟨?_, h2⟩
      rw [h1]
      simp [mediaPayloads, List.filterMap_cons]
    | other =>
      obtain ⟨h1, h2⟩ := ih s h
      simp only [List.foldl_cons, processTwilioEvent]
      refine ⟨?_, h2⟩
      rw [h1]
      simp [mediaPayloads, List.filterMap_cons]

/-- C5: for every sequence of inbound media frames on one leg, the frame buffer
never loses data across sends — bytes are appended in arrival order and drained
in `buffer_size`-sized chunks from the front in strict arrival order, and when
the leg's inbound stream ends any remainder is flushed through the same
conversion path, so the concatenation of all forwarded chunks equals the
concatenation of all received media payloads. -/
theorem C5_buffer_never_loses_data (events : List TwilioEvent) :
    (receive_from_twilio events).flatten = (mediaPayloads events).flatten ∧
    ∀ c ∈ (twilioLoop events).sent, c.length = buffer_size := by
  obtain ⟨h1, h2⟩ :=
    twilioLoop_invariant events initTwilioRecvState (by simp [initTwilioRecvState])
  refine ⟨?_, h2⟩
  by_cases hb : (List.foldl processTwilioEvent initTwilioRecvState events).buffer = []
  · rw [hb] at h1
    simp only [receive_from_twilio, twilioLoop]
    rw [if_pos hb]
    simpa [initTwilioRecvState] using h1
  · simp only [receive_from_twilio, twilioLoop]
    rw [if_neg hb]
    simpa [initTwilioRecvState, List.flatten_append] using h1

/-! ### Claim C4 -/

/-- C4: every task identifier sent to a worker has at most one corresponding
pending record (a fresh id never collides with a pending one, and the
uniqueness invariant is preserved by submission), and that record is resolved
exactly once: the resolver removes the pending record before resolving it, a
second triple with the same id is silently dropped, and an output triple whose
id has no matching pending record (for example, one already cancelled by
shutdown) leaves the state entirely unchanged. -/
theorem C4_resolve_exactly_once {α β : Type} (s : MgrState α β) (p : α)
    (t u : ℕ × Option β × Option String) (hwf : MgrWf s) :
    ((AsyncProcessManager.submit s p).2 ∉ s.pending ∧
      MgrWf (AsyncProcessManager.submit s p).1) ∧
    t.1 ∉ (AsyncProcessManager.handle_item s t).pending ∧
    (u.1 = t.1 →
      AsyncProcessManager.handle_item (AsyncProcessManager.handle_item s t) u =
        AsyncProcessManager.handle_item s t) ∧
    (t.1 ∉ s.pending → AsyncProcessManager.handle_item s t = s) ∧
    (t.1 ∈ s.pending →
      (AsyncProcessManager.handle_item s t).pending = s.pending.erase t.1 ∧
      (AsyncProcessManager.handle_item s t).done =
        s.done ++ [(t.1, tripleOutcome t)]) := by
  obtain ⟨hnd, hlt⟩ := hwf
  have hfresh : s.nextId ∉ s.pending := fun hmem => absurd (hlt _ hmem) (by omega)
  have hnotmem : ∀ (v : MgrState α β) (w : ℕ × Option β × Option String),
      w.1 ∉ v.pending → AsyncProcessManager.handle_item v w = v := by
    intro v w hv
    simp [AsyncProcessManager.handle_item, hv]
  have hafter : t.1 ∉ (AsyncProcessManager.handle_item s t).pending := by
    by_cases hmem : t.1 ∈ s.pending
    · simp only [AsyncProcessManager.handle_item, if_pos hmem]
      intro hc
      exact absurd ((List.Nodup.mem_erase_iff hnd).mp hc).1 (by simp)
    · rw [hnotmem s t hmem]
      exact hmem
  refine ⟨⟨hfresh, ?_, ?_⟩, hafter, ?_, hnotmem s t, ?_⟩
  · simp only [AsyncProcessManager.submit, List.nodup_append]
    exact ⟨hnd, List.nodup_singleton _, by
      intro a ha hb
      simp at hb
      subst hb
      exact hfresh ha⟩
  · intro id hmem
    simp only [AsyncProcessManager.submit, List.mem_append, List.mem_singleton] at hmem ⊢
    rcases hmem with hmem | hmem
    · exact Nat.lt_succ_of_lt (hlt _ hmem)
    · omega
  · intro hu
    refine hnotmem _ u ?_
    rw [hu]
    exact hafter
  · intro hmem
    simp [AsyncProcessManager.handle_item, hmem]

/-- Witness for C4 at a concrete manager state, payload and triples. -/
theorem C4_witness :
    MgrWf c4demo ∧
    (((AsyncProcessManager.submit c4demo 5).2 ∉ c4demo.pending ∧
        MgrWf (AsyncProcessManager.submit c4demo 5).1) ∧
      c4t.1 ∉ (AsyncProcessManager.handle_item c4demo c4t).pending ∧
      (c4u.1 = c4t.1 →
        AsyncProcessManager.handle_item
            (AsyncProcessManager.handle_item c4demo c4t) c4u =
          AsyncProcessManager.handle_item c4demo c4t) ∧
      (c4t.1 ∉ c4demo.pending →
        AsyncProcessManager.handle_item c4demo c4t = c4demo) ∧
      (c4t.1 ∈ c4demo.pending →
        (AsyncProcessManager.handle_item c4demo c4t).pending =
          c4demo.pending.erase c4t.1 ∧
        (AsyncProcessManager.handle_item c4demo c4t).done =
          c4demo.done ++ [(c4t.1, tripleOutcome c4t)])) :=
  ⟨by constructor <;> simp [c4demo, MgrWf],
   C4_resolve_exactly_once c4demo 5 c4t c4u
     (by constructor <;> simp [c4demo, MgrWf])⟩

/-! ### Claim C3 -/

/-- With the resolver stopped, no pool step resolves anything: pending ids and
the resolver flag are preserved by every step. -/
theorem poolStep_preserves_pending {α β : Type} (handle : α → Except String β)
    {s v : MgrState α β} (st : PoolStep handle s v)
    (hr : s.resolverActive = false) :
    v.pending = s.pending ∧ v.resolverActive = false := by
  cases st with
  | workerSentinel rest h hq => exact ⟨rfl, hr⟩
  | workerRun it rest h hq hne => exact ⟨rfl, hr⟩
  | resolver t rest hra hq =>
    rw [hr] at hra
    exact absurd hra (by decide)

/-- Once the resolver is stopped, a pending future stays pending in every
reachable state: the awaiting caller hangs. -/
theorem neverResolved_of_resolver_off {α β : Type} (handle : α → Except String β)
    (s0 : MgrState α β) (id : ℕ) (hid : id ∈ s0.pending)
    (hr : s0.resolverActive = false) : NeverResolved handle s0 id := by
  intro s hreach
  suffices h : id ∈ s.pending ∧ s.resolverActive = false from h.1
  induction hreach with
  | refl => exact ⟨hid, hr⟩
  | tail hab hbc ih =>
    obtain ⟨h1, h2⟩ := ih
    obtain ⟨hp, hra⟩ := poolStep_preserves_pending handle hbc h2
    exact ⟨hp ▸ h1, hra⟩

/-- C3 amended: `close()` sends exactly one termination sentinel per worker
process, stops the resolver loop, joins all workers with a bounded timeout, and
fails every still-pending result with a cancellation error (clearing the dict);
but a submit call made after close does NOT fail fast: it registers a future and
enqueues the task normally, and that future is never resolved in any reachable
state — the caller hangs. -/
theorem C3_close_cancels_and_post_close_submit_hangs {α β : Type}
    (s : MgrState α β) (payload : α) (handle : α → Except String β) :
    (AsyncProcessManager.close s).inputQueue =
      s.inputQueue ++ List.replicate s.procs .sentinel ∧
    (AsyncProcessManager.close s).resolverActive = false ∧
    (AsyncProcessManager.close s).joinTimeout = some 1 ∧
    (AsyncProcessManager.close s).pending = [] ∧
    (AsyncProcessManager.close s).done =
      s.done ++ s.pending.map (fun id => (id, Outcome.cancelled)) ∧
    (AsyncProcessManager.submit (AsyncProcessManager.close s) payload).2 ∈
      (AsyncProcessManager.submit (AsyncProcessManager.close s) payload).1.pending ∧
    NeverResolved handle
      (AsyncProcessManager.submit (AsyncProcessManager.close s) payload).1
      (AsyncProcessManager.submit (AsyncProcessManager.close s) payload).2 := by
  refine ⟨rfl, rfl, rfl, rfl, rfl, ?_, ?_⟩
  · simp [AsyncProcessManager.submit, AsyncProcessManager.close]
  · exact neverResolved_of_resolver_off handle _ _
      (by simp [AsyncProcessManager.submit, AsyncProcessManager.close]) rfl

/-- C3 as stated is false at a concrete input: after closing a fresh two-worker
manager, a further submit is accepted (its future registered and its task
enqueued) and that future is never resolved in any reachable state — the submit
call hangs instead of failing fast. -/
theorem C3_counterexample :
    c3demo.2 ∈ c3demo.1.pending ∧
    c3demo.1.resolverActive = false ∧
    NeverResolved (fun n => Except.ok n) c3demo.1 c3demo.2 :=
  ⟨by decide, by decide,
   neverResolved_of_resolver_off (fun n => Except.ok n) c3demo.1 c3demo.2
     (by decide) (by decide)⟩

/-! ### Claim C1 -/

/-- Clipping to the signed 16-bit range and truncating toward zero always lands
in the signed 16-bit range. -/
theorem truncQ_clip16_range (q : ℚ) :
    -32768 ≤ truncQ (clip16 q) ∧ truncQ (clip16 q) ≤ 32767 := by
  have h1 : (-32768 : ℚ) ≤ clip16 q := le_max_left _ _
  have h2 : clip16 q ≤ 32767 := max_le (by norm_num) (min_le_left _ _)
  unfold truncQ
  split
  · rename_i h0
    constructor
    · have h4 : (0 : ℤ) ≤ ⌊clip16 q⌋ := Int.le_floor.mpr (by exact_mod_cast h0)
      omega
    · have h4 : ⌊clip16 q⌋ ≤ ⌊(32767 : ℚ)⌋ := Int.floor_le_floor h2
      have h3 : ⌊(32767 : ℚ)⌋ = 32767 := by norm_num
      omega
  · rename_i h0
    push_neg at h0
    constructor
    · have h4 : ⌊-clip16 q⌋ ≤ ⌊(32768 : ℚ)⌋ := Int.floor_le_floor (by linarith)
      have h3 : ⌊(32768 : ℚ)⌋ = 32768 := by norm_num
      omega
    · have h4 : (0 : ℤ) ≤ ⌊-clip16 q⌋ := Int.le_floor.mpr (by push_cast; linarith)
      omega

/-- Zero-padding to a length at least the list's own length yields that length. -/
theorem padTo_length (n : ℕ) (l : List ℤ) (h : l.length ≤ n) :
    (padTo n l).length = n := by
  simp [padTo]
  omega

/-- C1: for every pair of 16-bit PCM chunks and positive gains, the two-chunk
branch of `MixingWorker.handle` pads the shorter sample sequence with zeros to
the longer length, computes each mixed sample as
`(A[i]*gainA + B[i]*gainB) / (gainA + gainB)` saturated to the signed 16-bit
range, and only then re-encodes to the output rate and companding. -/
theorem C1_two_chunk_mixing (a b : List ℤ) (va vb : ℚ) (hva : 0 < va)
    (hvb : 0 < vb) :
    (mixedSamples ⟨a, some b, va, vb⟩).length = max a.length b.length ∧
    (∀ i, i < max a.length b.length →
      (mixedSamples ⟨a, some b, va, vb⟩).getD i 0 =
        truncQ (clip16
          ((((padTo (max a.length b.length) a).getD i 0 : ℚ) * va +
              ((padTo (max a.length b.length) b).getD i 0 : ℚ) * vb) /
            (va + vb)))) ∧
    (∀ x ∈ mixedSamples ⟨a, some b, va, vb⟩, -32768 ≤ x ∧ x ≤ 32767) ∧
    MixingWorker_handle ⟨a, some b, va, vb⟩ =
      lin2ulaw (ratecv_24k_to_8k (mixedSamples ⟨a, some b, va, vb⟩)) := by
  have hla : (padTo (max a.length b.length) a).length = max a.length b.length :=
    padTo_length _ _ (le_max_left _ _)
  have hlb : (padTo (max a.length b.length) b).length = max a.length b.length :=
    padTo_length _ _ (le_max_right _ _)
  have hms : mixedSamples ⟨a, some b, va, vb⟩ =
      List.zipWith (mixSample2 va vb) (padTo (max a.length b.length) a)
        (padTo (max a.length b.length) b) := rfl
  have hlen : (mixedSamples ⟨a, some b, va, vb⟩).length = max a.length b.length := by
    rw [hms, List.length_zipWith, hla, hlb, min_self]
  refine ⟨hlen, ?_, ?_, rfl⟩
  · intro i hi
    have hi2 : i < (mixedSamples ⟨a, some b, va, vb⟩).length := by omega
    rw [List.getD_eq_getElem _ _ hi2]
    have hia : i < (padTo (max a.length b.length) a).length := by omega
    have hib : i < (padTo (max a.length b.length) b).length := by omega
    rw [List.getD_eq_getElem _ _ hia, List.getD_eq_getElem _ _ hib]
    simp only [hms, List.getElem_zipWith]
    rfl
  · intro x hx
    rw [hms] at hx
    obtain ⟨i, hi, rfl⟩ := List.mem_iff_getElem.mp hx
    rw [List.getElem_zipWith]
    exact truncQ_clip16_range _

/-- Witness for C1 at concrete chunks and gains. -/
theorem C1_witness :
    (0 : ℚ) < 1 ∧ (0 : ℚ) < 2 ∧
    ((mixedSamples ⟨[100], some [1, 2], 1, 2⟩).length =
        max ([100] : List ℤ).length ([1, 2] : List ℤ).length ∧
      (∀ i, i < max ([100] : List ℤ).length ([1, 2] : List ℤ).length →
        (mixedSamples ⟨[100], some [1, 2], 1, 2⟩).getD i 0 =
          truncQ (clip16
            ((((padTo (max ([100] : List ℤ).length ([1, 2] : List ℤ).length)
                    [100]).getD i 0 : ℚ) * 1 +
                ((padTo (max ([100] : List ℤ).length ([1, 2] : List ℤ).length)
                    [1, 2]).getD i 0 : ℚ) * 2) /
              (1 + 2)))) ∧
      (∀ x ∈ mixedSamples ⟨[100], some [1, 2], 1, 2⟩,
        -32768 ≤ x ∧ x ≤ 32767) ∧
      MixingWorker_handle ⟨[100], some [1, 2], 1, 2⟩ =
        lin2ulaw (ratecv_24k_to_8k (mixedSamples ⟨[100], some [1, 2], 1, 2⟩))) :=
  ⟨one_pos, two_pos, C1_two_chunk_mixing [100] [1, 2] 1 2 one_pos two_pos⟩

/-! ### Claim C7 -/

/-- Clipping and truncating an in-range integer sample is the identity. -/
theorem truncQ_clip16_intCast (x : ℤ) (h1 : -32768 ≤ x) (h2 : x ≤ 32767) :
    truncQ (clip16 (x : ℚ)) = x := by
  unfold clip16 truncQ
  rw [min_eq_right (by exact_mod_cast h2), max_eq_right (by exact_mod_cast h1)]
  split
  · exact Int.floor_intCast x
  · rw [← Int.cast_neg, Int.floor_intCast]
    omega

/-- The padded-silence two-chunk path with equal gains `g` halves every sample,
regardless of `g`: `(x*g + 0*g) / (g+g) = x/2`. -/
theorem mixedSamples_silence (a : List ℤ) (g : ℚ) (hg : g ≠ 0) :
    mixedSamples ⟨a, some (List.replicate a.length 0), g, g⟩ =
      a.map (fun x : ℤ => truncQ (clip16 ((x : ℚ) / 2))) := by
  have hzip : ∀ l : List ℤ,
      List.zipWith (mixSample2 g g) l (List.replicate l.length 0) =
        l.map (fun x => mixSample2 g g x 0) := by
    intro l
    induction l with
    | nil => rfl
    | cons x xs ih => simp [List.replicate_succ, ih]
  have hms : mixedSamples ⟨a, some (List.replicate a.length 0), g, g⟩ =
      List.zipWith (mixSample2 g g) a (List.replicate a.length 0) := by
    simp [mixedSamples, padTo]
  rw [hms, hzip]
  refine List.map_congr_left ?_
  intro x _
  unfold mixSample2
  have h2g : g + g ≠ 0 := by
    intro h
    exact hg (by linarith)
  have harg : (((x : ℤ) : ℚ) * g + (((0 : ℤ) : ℚ)) * g) / (g + g) = ((x : ℤ) : ℚ) / 2 := by
    rw [div_eq_div_iff h2g (by norm_num : (2 : ℚ) ≠ 0)]
    push_cast
    ring
  rw [harg]

/-- The single-chunk path scales every sample by `vol_a`. -/
theorem mixedSamples_single (a : List ℤ) (g vb : ℚ) :
    mixedSamples ⟨a, none, g, vb⟩ =
      a.map (fun x : ℤ => truncQ (clip16 ((x : ℚ) * g))) := rfl

/-- C7 amended: the padded-silence path halves every sample regardless of the
(equal, nonzero) gain, while the single-input path scales by `vol_a`; the two
paths agree at the default gain 1/2 — but not in general. -/
theorem C7_amended (a : List ℤ) (g vb : ℚ) (hg : 0 < g) :
    mixedSamples ⟨a, some (List.replicate a.length 0), g, g⟩ =
      a.map (fun x : ℤ => truncQ (clip16 ((x : ℚ) / 2))) ∧
    mixedSamples ⟨a, none, g, vb⟩ =
      a.map (fun x : ℤ => truncQ (clip16 ((x : ℚ) * g))) ∧
    MixingWorker_handle ⟨a, none, 1 / 2, vb⟩ =
      MixingWorker_handle ⟨a, some (List.replicate a.length 0), 1 / 2, 1 / 2⟩ := by
  refine ⟨mixedSamples_silence a g (ne_of_gt hg), mixedSamples_single a g vb, ?_⟩
  unfold MixingWorker_handle
  rw [mixedSamples_silence a (1 / 2) (by norm_num), mixedSamples_single]
  congr 1
  refine congrArg _ ?_
  refine List.map_congr_left ?_
  intro x _
  rw [mul_one_div]

/-- Witness for C7 at a concrete chunk and gain. -/
theorem C7_amended_witness :
    (0 : ℚ) < 1 ∧
    (mixedSamples ⟨[100], some (List.replicate ([100] : List ℤ).length 0), 1, 1⟩ =
        ([100] : List ℤ).map (fun x : ℤ => truncQ (clip16 ((x : ℚ) / 2))) ∧
      mixedSamples ⟨[100], none, 1, 1 / 2⟩ =
        ([100] : List ℤ).map (fun x : ℤ => truncQ (clip16 ((x : ℚ) * 1))) ∧
      MixingWorker_handle ⟨[100], none, 1 / 2, 1 / 2⟩ =
        MixingWorker_handle
          ⟨[100], some (List.replicate ([100] : List ℤ).length 0), 1 / 2, 1 / 2⟩) :=
  ⟨one_pos, C7_amended [100] 1 (1 / 2) one_pos⟩

/-- C7 as stated is false at gain 1: the single-input path keeps the samples at
8192 (mu-law byte 159) while the padded-silence path halves them to 4096
(mu-law byte 175), so the two mixes produce different output bytes. -/
theorem C7_counterexample :
    MixingWorker_handle ⟨[8192, 8192, 8192, 8192], none, 1, 1 / 2⟩ ≠
      MixingWorker_handle ⟨[8192, 8192, 8192, 8192], some [0, 0, 0, 0], 1, 1⟩ := by
  have hs1 : mixSample1 1 8192 = 8192 := by
    unfold mixSample1
    rw [mul_one]
    exact truncQ_clip16_intCast 8192 (by norm_num) (by norm_num)
  have hm1 : mixedSamples ⟨[8192, 8192, 8192, 8192], none, 1, 1 / 2⟩ =
      [8192, 8192, 8192, 8192] := by
    show List.map (mixSample1 1) [8192, 8192, 8192, 8192] = _
    rw [List.map_cons, List.map_cons, List.map_cons, List.map_cons, List.map_nil,
      hs1]
  have hhalf : truncQ (clip16 (((8192 : ℤ) : ℚ) / 2)) = 4096 := by
    have hv : ((8192 : ℤ) : ℚ) / 2 = ((4096 : ℤ) : ℚ) := by
      push_cast
      norm_num
    rw [hv]
    exact truncQ_clip16_intCast 4096 (by norm_num) (by norm_num)
  have hrep : ([0, 0, 0, 0] : List ℤ) =
      List.replicate (([8192, 8192, 8192, 8192] : List ℤ)).length 0 := rfl
  have hm2 : mixedSamples ⟨[8192, 8192, 8192, 8192], some [0, 0, 0, 0], 1, 1⟩ =
      [4096, 4096, 4096, 4096] := by
    rw [hrep, mixedSamples_silence _ 1 one_ne_zero]
    rw [List.map_cons, List.map_cons, List.map_cons, List.map_cons, List.map_nil,
      hhalf]
  unfold MixingWorker_handle
  rw [hm1, hm2]
  decide

/-! ### Claim C2 -/

/-- Adjacent `range'` blocks concatenate. -/
theorem range'_append_blocks (a m n : ℕ) :
    List.range' a m ++ List.range' (a + m) n = List.range' a (m + n) := by
  have h := (List.range'_append a m n 1).symm
  simpa [Nat.add_comm] using h

/-- With `batch_size ≥ 1` and enough fuel, the slicing loop partitions the list:
the slices concatenate back to the input. -/
theorem sliceLoop_flatten {α : Type} (k : ℕ) (hk : 1 ≤ k) :
    ∀ (fuel : ℕ) (l : List α), l.length ≤ fuel → (sliceLoop k fuel l).flatten = l := by
  intro fuel
  induction fuel with
  | zero =>
    intro l hl
    have : l = [] := List.eq_nil_of_length_eq_zero (Nat.le_zero.mp hl)
    subst this
    rfl
  | succ fuel ih =>
    intro l hl
    cases l with
    | nil => rfl
    | cons x xs =>
      simp only [List.length_cons] at hl
      show ((x :: xs).take k :: sliceLoop k fuel ((x :: xs).drop k)).flatten = x :: xs
      rw [List.flatten_cons, ih _ (by simp only [List.length_drop, List.length_cons]; omega),
        List.take_append_drop]

/-- Every slice has at most `batch_size` elements. -/
theorem sliceLoop_sizes {α : Type} (k : ℕ) (hk : 1 ≤ k) :
    ∀ (fuel : ℕ) (l : List α), l.length ≤ fuel → ∀ g ∈ sliceLoop k fuel l, g.length ≤ k := by
  intro fuel
  induction fuel with
  | zero =>
    intro l hl g hg
    have : l = [] := List.eq_nil_of_length_eq_zero (Nat.le_zero.mp hl)
    subst this
    cases hg
  | succ fuel ih =>
    intro l hl g hg
    cases l with
    | nil => cases hg
    | cons x xs =>
      simp only [List.length_cons] at hl
      rw [show sliceLoop k (fuel + 1) (x :: xs) =
          (x :: xs).take k :: sliceLoop k fuel ((x :: xs).drop k) from rfl] at hg
      rcases List.mem_cons.mp hg with hg | hg
      · subst hg
        simp only [List.length_take]
        omega
      · exact ih _ (by simp only [List.length_drop, List.length_cons]; omega) g hg

/-- The function `pythonSlices` partitions: the groups concatenate back to the input. -/
theorem pythonSlices_flatten {α : Type} (k : ℕ) (hk : 1 ≤ k) (l : List α) :
    (pythonSlices k l).flatten = l :=
  sliceLoop_flatten k hk l.length l le_rfl

/-- All `pythonSlices` groups have at most `batch_size` elements. -/
theorem pythonSlices_sizes {α : Type} (k : ℕ) (hk : 1 ≤ k) (l : List α) :
    ∀ g ∈ pythonSlices k l, g.length ≤ k :=
  sliceLoop_sizes k hk l.length l le_rfl

/-- A worker output triple carries the task id of its input pair. -/
theorem workerOut_fst {α β : Type} (handle : α → Except String β) (t : ℕ × α) :
    (workerOut handle t).1 = t.1 := by
  unfold workerOut
  cases handle t.2 <;> rfl

/-- Resolving a worker output triple gives the per-payload outcome. -/
theorem tripleOutcome_workerOut {α β : Type} (handle : α → Except String β)
    (t : ℕ × α) :
    tripleOutcome (workerOut handle t) = submittedOutcome handle t.2 := by
  unfold workerOut tripleOutcome submittedOutcome
  cases handle t.2 <;> rfl

/-- The task ids of the canonical worker outputs are the submitted id range. -/
theorem canonicalOuts_keys {α β : Type} (handle : α → Except String β) (n : ℕ)
    (data : List α) :
    (canonicalOuts handle n data).map Prod.fst = List.range' n data.length := by
  unfold canonicalOuts
  rw [List.map_map]
  have hcongr : ((List.range' n data.length).zip data).map (Prod.fst ∘ workerOut handle) =
      ((List.range' n data.length).zip data).map Prod.fst :=
    List.map_congr_left fun t _ => workerOut_fst handle t
  rw [hcongr]
  exact List.map_fst_zip _ _ (by simp)

/-- Unfolding the `submit_many` loop: ids are consecutive from the counter, one
`.batch` queue item is appended per group, and nothing else changes. -/
theorem submit_many_fold_spec {α β : Type} (gs : List (List α)) :
    ∀ (s : MgrState α β) (acc : List ℕ),
      ((gs.foldl
            (fun acc group =>
              (submitGroup acc.1 group, acc.2 ++ List.range' acc.1.nextId group.length))
            (s, acc)).1.pending =
          s.pending ++ List.range' s.nextId gs.flatten.length) ∧
      ((gs.foldl
            (fun acc group =>
              (submitGroup acc.1 group, acc.2 ++ List.range' acc.1.nextId group.length))
            (s, acc)).2 =
          acc ++ List.range' s.nextId gs.flatten.length) ∧
      ((gs.foldl
            (fun acc group =>
              (submitGroup acc.1 group, acc.2 ++ List.range' acc.1.nextId group.length))
            (s, acc)).1.done = s.done) ∧
      ((gs.foldl
            (fun acc group =>
              (submitGroup acc.1 group, acc.2 ++ List.range' acc.1.nextId group.length))
            (s, acc)).1.inputQueue = s.inputQueue ++ batchItems s.nextId gs) ∧
      ((gs.foldl
            (fun acc group =>
              (submitGroup acc.1 group, acc.2 ++ List.range' acc.1.nextId group.length))
            (s, acc)).1.nextId = s.nextId + gs.flatten.length) := by
  induction gs with
  | nil =>
    intro s acc
    simp [batchItems]
  | cons g gs ih =>
    intro s acc
    obtain ⟨h1, h2, h3, h4, h5⟩ :=
      ih (submitGroup s g) (acc ++ List.range' s.nextId g.length)
    simp only [List.foldl_cons]
    refine ⟨?_, ?_, ?_, ?_, ?_⟩
    · rw [h1]
      simp only [submitGroup]
      rw [List.append_assoc, range'_append_blocks]
      simp
    · rw [h2]
      simp only [submitGroup]
      rw [List.append_assoc, range'_append_blocks]
      simp
    · rw [h3]
      simp only [submitGroup]
    · rw [h4]
      simp only [submitGroup]
      rw [List.append_assoc]
      simp [batchItems]
    · rw [h5]
      simp only [submitGroup]
      simp [Nat.add_assoc]

/-- Running the worker body over the enqueued `.batch` items yields exactly the
canonical outputs of all payloads, in id order. -/
theorem batchItems_outputs {α β : Type} (handle : α → Except String β) :
    ∀ (gs : List (List α)) (n : ℕ),
      ((batchItems n gs).map (processItem handle)).flatten =
        canonicalOuts handle n gs.flatten := by
  intro gs
  induction gs with
  | nil =>
    intro n
    simp [batchItems, canonicalOuts]
  | cons g gs ih =>
    intro n
    show (processItem handle (.batch ((List.range' n g.length).zip g)) ::
        (batchItems (n + g.length) gs).map (processItem handle)).flatten = _
    rw [List.flatten_cons, ih]
    unfold canonicalOuts processItem
    rw [List.flatten_cons, List.length_append, ← range'_append_blocks,
      List.zip_append (by simp), List.map_append]

/-- Folding the resolver over output triples with pairwise distinct, all-pending
ids resolves each exactly once, in delivery order. -/
theorem resolveAll_done {α β : Type} :
    ∀ (outs : List (ℕ × Option β × Option String)) (s : MgrState α β),
      (outs.map Prod.fst).Nodup → (∀ t ∈ outs, t.1 ∈ s.pending) →
      (resolveAll s outs).done =
        s.done ++ outs.map (fun t => (t.1, tripleOutcome t)) := by
  intro outs
  induction outs with
  | nil =>
    intro s _ _
    simp [resolveAll]
  | cons t rest ih =>
    intro s hnd hmem
    have htmem : t.1 ∈ s.pending := hmem t (List.mem_cons_self t rest)
    rw [List.map_cons, List.nodup_cons] at hnd
    have hstep : AsyncProcessManager.handle_item s t =
        { s with pending := s.pending.erase t.1,
                 done := s.done ++ [(t.1, tripleOutcome t)] } := by
      unfold AsyncProcessManager.handle_item
      rw [if_pos htmem]
    show (resolveAll (AsyncProcessManager.handle_item s t) rest).done = _
    rw [hstep, ih _ hnd.2]
    · simp
    · intro u hu
      have hne : u.1 ≠ t.1 := by
        intro h
        exact hnd.1 (h ▸ List.mem_map_of_mem Prod.fst hu)
      exact (List.mem_erase_of_ne hne).mpr (hmem u (List.mem_cons_of_mem t hu))

/-- First-match lookup in an association list with pairwise distinct keys finds
the unique entry. -/
theorem lookupId_of_mem {β : Type} (id : ℕ) (v : β) :
    ∀ l : List (ℕ × β), (l.map Prod.fst).Nodup → (id, v) ∈ l →
      lookupId id l = some v := by
  intro l
  induction l with
  | nil =>
    intro _ h
    cases h
  | cons p rest ih =>
    intro hnd hmem
    obtain ⟨i, w⟩ := p
    rw [List.map_cons, List.nodup_cons] at hnd
    rcases List.mem_cons.mp hmem with heq | hmem2
    · injection heq with hi hw
      subst hi
      subst hw
      simp [lookupId]
    · have hne : i ≠ id := by
        intro h
        subst h
        have hmm : (Prod.fst ((i, v) : ℕ × β)) ∈ rest.map Prod.fst :=
          List.mem_map_of_mem Prod.fst hmem2
        exact hnd.1 hmm
      simp only [lookupId, if_neg hne]
      exact ih hnd.2 hmem2

/-- C2 amended: for every payload list and `batch_size ≥ 1`, `submit_many`
partitions the payloads into groups of at most `batch_size`, enqueues each group
as a single queue item, and — for ANY order in which the workers' outputs reach
the resolver — gathers exactly N results in the original submission order, the
result of slot i depending only on payload i. A transform failure therefore
fails only its own slot (as a `RuntimeError` when its message is nonempty; a
failure whose message is the empty string is resolved as a successful `None`,
still affecting no sibling slot). -/
theorem C2_submit_many_order_independent {α β : Type} (data : List α)
    (batch_size : ℕ) (handle : α → Except String β) (procs : ℕ)
    (outs : List (ℕ × Option β × Option String)) (hk : 1 ≤ batch_size)
    (hperm : outs.Perm (canonicalOuts handle 0 data)) :
    (pythonSlices batch_size data).flatten = data ∧
    (∀ g ∈ pythonSlices batch_size data, g.length ≤ batch_size) ∧
    (AsyncProcessManager.submit_many (initMgr α β procs) data batch_size).1.inputQueue =
      batchItems 0 (pythonSlices batch_size data) ∧
    (AsyncProcessManager.submit_many (initMgr α β procs) data batch_size).2 =
      List.range' 0 data.length ∧
    gatherResults
        (resolveAll
          (AsyncProcessManager.submit_many (initMgr α β procs) data batch_size).1
          outs)
        (AsyncProcessManager.submit_many (initMgr α β procs) data batch_size).2 =
      data.map (fun p => some (submittedOutcome handle p)) ∧
    (gatherResults
        (resolveAll
          (AsyncProcessManager.submit_many (initMgr α β procs) data batch_size).1
          outs)
        (AsyncProcessManager.submit_many (initMgr α β procs) data batch_size).2).length =
      data.length := by
  have hflat : (pythonSlices batch_size data).flatten = data :=
    pythonSlices_flatten batch_size hk data
  obtain ⟨hp, hids, hdone, hq, hnext⟩ :=
    submit_many_fold_spec (pythonSlices batch_size data) (initMgr α β procs) []
  rw [hflat] at hp hids hnext
  have e1 : (initMgr α β procs).pending = [] := rfl
  have e2 : (initMgr α β procs).nextId = 0 := rfl
  have e3 : (initMgr α β procs).done = [] := rfl
  have e4 : (initMgr α β procs).inputQueue = [] := rfl
  rw [e1, e2, List.nil_append] at hp
  rw [e2, List.nil_append] at hids
  rw [e3] at hdone
  rw [e2, e4, List.nil_append] at hq
  have hp2 : (AsyncProcessManager.submit_many (initMgr α β procs) data batch_size).1.pending =
      List.range' 0 data.length := hp
  have hids2 : (AsyncProcessManager.submit_many (initMgr α β procs) data batch_size).2 =
      List.range' 0 data.length := hids
  have hdone2 : (AsyncProcessManager.submit_many (initMgr α β procs) data batch_size).1.done =
      [] := hdone
  have hq2 : (AsyncProcessManager.submit_many (initMgr α β procs) data batch_size).1.inputQueue =
      batchItems 0 (pythonSlices batch_size data) := hq
  have hkeysPerm : (outs.map Prod.fst).Perm (List.range' 0 data.length) := by
    have h := hperm.map Prod.fst
    rwa [canonicalOuts_keys] at h
  have hkeysNodup : (outs.map Prod.fst).Nodup :=
    hkeysPerm.nodup_iff.mpr (List.nodup_range' 0 data.length 1 (by norm_num))
  have hmem : ∀ t ∈ outs,
      t.1 ∈ (AsyncProcessManager.submit_many (initMgr α β procs) data batch_size).1.pending := by
    intro t ht
    rw [hp2]
    have h1 : t ∈ canonicalOuts handle 0 data := hperm.mem_iff.mp ht
    have h2 : t.1 ∈ (canonicalOuts handle 0 data).map Prod.fst :=
      List.mem_map_of_mem Prod.fst h1
    rwa [canonicalOuts_keys] at h2
  have hdoneAll :
      (resolveAll
          (AsyncProcessManager.submit_many (initMgr α β procs) data batch_size).1
          outs).done =
        outs.map (fun t => (t.1, tripleOutcome t)) := by
    rw [resolveAll_done outs _ hkeysNodup hmem, hdone2, List.nil_append]
  have hgather :
      gatherResults
          (resolveAll
            (AsyncProcessManager.submit_many (initMgr α β procs) data batch_size).1
            outs)
          (AsyncProcessManager.submit_many (initMgr α β procs) data batch_size).2 =
        data.map (fun p => some (submittedOutcome handle p)) := by
    unfold gatherResults
    rw [hids2, hdoneAll]
    refine List.ext_getElem (by simp) ?_
    intro i h1 h2
    have hd : i < data.length := by simpa using h2
    have hr : i < (List.range' 0 data.length).length := by simpa using h2
    have hc : i < (canonicalOuts handle 0 data).length := by
      simp only [canonicalOuts, List.length_map, List.length_zip,
        List.length_range', min_self]
      exact hd
    rw [List.getElem_map, List.getElem_map]
    have hidx : (List.range' 0 data.length)[i] = i := by
      simp [List.getElem_range']
    rw [hidx]
    have hcanon : (canonicalOuts handle 0 data)[i] =
        workerOut handle (i, data[i]) := by
      unfold canonicalOuts
      rw [List.getElem_map, List.getElem_zip]
      congr 1
      · simp [List.getElem_range']
    have hmemc : workerOut handle (i, data[i]) ∈ canonicalOuts handle 0 data := by
      rw [← hcanon]
      exact List.getElem_mem _
    have houts : workerOut handle (i, data[i]) ∈ outs :=
      hperm.mem_iff.mpr hmemc
    have hentry : ((i : ℕ), submittedOutcome handle (data[i])) ∈
        outs.map (fun t => (t.1, tripleOutcome t)) := by
      have h3 := List.mem_map_of_mem (fun t => (t.1, tripleOutcome t)) houts
      simp only [workerOut_fst, tripleOutcome_workerOut] at h3
      exact h3
    have hmapped : ((outs.map (fun t => (t.1, tripleOutcome t))).map Prod.fst).Nodup := by
      rw [List.map_map]
      have hcongr : outs.map (Prod.fst ∘ fun t => (t.1, tripleOutcome t)) =
          outs.map Prod.fst :=
        List.map_congr_left fun t _ => rfl
      rw [hcongr]
      exact hkeysNodup
    rw [lookupId_of_mem i _ _ hmapped hentry]
  refine ⟨hflat, pythonSlices_sizes batch_size hk data, hq2, hids2, hgather, ?_⟩
  rw [hgather, List.length_map]

/-- Witness for C2: two payloads, batch size 32, worker outputs delivered in
reversed order. -/
theorem C2_witness :
    1 ≤ 32 ∧
    ((canonicalOuts cexHandle 0 [5, 0]).reverse).Perm (canonicalOuts cexHandle 0 [5, 0]) ∧
    ((pythonSlices 32 ([5, 0] : List ℕ)).flatten = [5, 0] ∧
      (∀ g ∈ pythonSlices 32 ([5, 0] : List ℕ), g.length ≤ 32) ∧
      (AsyncProcessManager.submit_many (initMgr ℕ ℕ 1) [5, 0] 32).1.inputQueue =
        batchItems 0 (pythonSlices 32 ([5, 0] : List ℕ)) ∧
      (AsyncProcessManager.submit_many (initMgr ℕ ℕ 1) [5, 0] 32).2 =
        List.range' 0 ([5, 0] : List ℕ).length ∧
      gatherResults
          (resolveAll (AsyncProcessManager.submit_many (initMgr ℕ ℕ 1) [5, 0] 32).1
            ((canonicalOuts cexHandle 0 [5, 0]).reverse))
          (AsyncProcessManager.submit_many (initMgr ℕ ℕ 1) [5, 0] 32).2 =
        ([5, 0] : List ℕ).map (fun p => some (submittedOutcome cexHandle p)) ∧
      (gatherResults
          (resolveAll (AsyncProcessManager.submit_many (initMgr ℕ ℕ 1) [5, 0] 32).1
            ((canonicalOuts cexHandle 0 [5, 0]).reverse))
          (AsyncProcessManager.submit_many (initMgr ℕ ℕ 1) [5, 0] 32).2).length =
        ([5, 0] : List ℕ).length) :=
  ⟨by norm_num, List.reverse_perm _,
   C2_submit_many_order_independent [5, 0] 32 cexHandle 1
     ((canonicalOuts cexHandle 0 [5, 0]).reverse) (by norm_num)
     (List.reverse_perm _)⟩

/-- C2 as stated is false at a concrete input: payload 0 raises an exception
whose `str` is empty, so the worker reports `(id, None, "")`, the resolver's
`if error:` is false, and that slot is resolved as a SUCCESSFUL `None` — the
injected transform failure does not fail its slot (sibling slots are still
unaffected). -/
theorem C2_counterexample :
    cexHandle 0 = .error "" ∧
    gatherResults
        (resolveAll (AsyncProcessManager.submit_many (initMgr ℕ ℕ 1) [5, 0] 32).1
          ((canonicalOuts cexHandle 0 [5, 0]).reverse))
        (AsyncProcessManager.submit_many (initMgr ℕ ℕ 1) [5, 0] 32).2 =
      [some (Outcome.ok (some 5)), some (Outcome.ok none)] ∧
    ((gatherResults
          (resolveAll (AsyncProcessManager.submit_many (initMgr ℕ ℕ 1) [5, 0] 32).1
            ((canonicalOuts cexHandle 0 [5, 0]).reverse))
          (AsyncProcessManager.submit_many (initMgr ℕ ℕ 1) [5, 0] 32).2).getD 1
        none).map Outcome.isFailure = some false := by
  refine ⟨rfl, ?_, ?_⟩ <;> decide
